import Mathlib

/-!
Shallow embedding of `scripts/combine_sprites.py`, the animation atlas
composer.  Static tables and pure computation are translated directly;
the filesystem is modelled as a record of query functions, and PIL
images as a size plus a total pixel function.
-/

/-- An RGBA pixel value, one channel per component. -/
abbrev RGBA : Type := Nat × Nat × Nat × Nat

/-- The fully transparent pixel `(0, 0, 0, 0)` used as sheet background. -/
def transparentPixel : RGBA := (0, 0, 0, 0)

/-- Model of a PIL image: a width, a height and a total pixel function
(only the values at `x < width`, `y < height` are meaningful). -/
structure Image where
  width : Nat
  height : Nat
  pix : Nat → Nat → RGBA

/-- `Image.new("RGBA", (w, h), (0, 0, 0, 0))`: a transparent canvas. -/
def Image.new (w h : Nat) : Image :=
  { width := w, height := h, pix := fun _ _ => transparentPixel }

/-- `sheet.paste(frame, (x0, y0))`: overwrite the rectangle of `sheet` at
`(x0, y0)` with the pixels of `frame` (PIL pastes every channel, so the
frame's own alpha values are copied into the sheet). -/
def Image.paste (sheet frame : Image) (x0 y0 : Nat) : Image :=
  { sheet with
    pix := fun x y =>
      if x0 ≤ x ∧ x < x0 + frame.width ∧ y0 ≤ y ∧ y < y0 + frame.height then
        frame.pix (x - x0) (y - y0)
      else
        sheet.pix x y }

/-- The four sheet directions. -/
inductive Direction where
  | south
  | west
  | east
  | north
deriving DecidableEq, Repr

/-- `DIRECTIONS: list[str] = ["south", "west", "east", "north"]`, the fixed
iteration order of the script. -/
def DIRECTIONS : List Direction := [.south, .west, .east, .north]

/-- Directory-name spelling of a direction. -/
def dirName : Direction → String
  | .south => "south"
  | .west => "west"
  | .east => "east"
  | .north => "north"

/-- `FRAME_SIZE: int = 64`. -/
def FRAME_SIZE : Nat := 64

/-- `ANIM_ORDER`: the hero row plan; `none` marks the per-character
"special" row whose source is resolved through `SPECIAL_ANIMS`. -/
def ANIM_ORDER : List (String × Option String) :=
  [("idle", some "breathing-idle"),
   ("run", some "running-6-frames"),
   ("jump", some "two-footed-jump"),
   ("special", none),
   ("attack", some "cross-punch")]

/-- `SPECIAL_ANIMS`: hero name → special-row source animation. -/
def SPECIAL_ANIMS : List (String × String) :=
  [("bolt", "hurricane-kick"),
   ("gale", "hurricane-kick"),
   ("vex", "running-slide"),
   ("forge", "running-slide"),
   ("nimbus", "jumping-1")]

/-- `ENEMY_ANIM_ORDER`: enemy kind → row plan. -/
def ENEMY_ANIM_ORDER : List (String × List (String × String)) :=
  [("slime",
    [("idle", "breathing-idle"),
     ("walk", "walking"),
     ("jump", "jumping-1"),
     ("hurt", "taking-punch")]),
   ("bat",
    [("idle", "breathing-idle"),
     ("walk", "walking-6-frames"),
     ("fly", "jumping-1"),
     ("hurt", "taking-punch")]),
   ("skeleton",
    [("idle", "breathing-idle"),
     ("walk", "walking-6-frames"),
     ("attack", "cross-punch"),
     ("hurt", "falling-back-death")])]

/-- Filesystem view of one entity directory: existence of
`animations/<name>` and of `animations/<name>/<direction>`, and the frame
images found there (in ascending sorted filename order, as produced by
`sorted(dir_path.glob("frame_*.png"))`). -/
structure CharFS where
  animDirExists : String → Bool
  frameDirExists : String → Direction → Bool
  framesOnDisk : String → Direction → List Image

/-- `get_frame_files`: the sorted `frame_*.png` images of
`animations/<pname>/<direction>`, or `[]` when that directory is absent. -/
def get_frame_files (fs : CharFS) (pname : String) (d : Direction) : List Image :=
  if fs.frameDirExists pname d then fs.framesOnDisk pname d else []

/-- Resolution of one row's source-animation name: a `None` source falls
back to `SPECIAL_ANIMS.get(char_name, "")`. -/
def resolveSource (charName : String) (src : Option String) : String :=
  match src with
  | none => (SPECIAL_ANIMS.lookup charName).getD ""
  | some p => p

/-- The inner `for d in DIRECTIONS: ... break` scan of the max-frame
counters: fold the length of the first non-empty direction into `acc`. -/
def scanFirstDir (fs : CharFS) (pname : String) (acc : Nat) : Nat :=
  match DIRECTIONS.find? (fun d => !(get_frame_files fs pname d).isEmpty) with
  | some d => max acc (get_frame_files fs pname d).length
  | none => acc

/-- `count_max_frames`. -/
def count_max_frames (fs : CharFS) (charName : String) : Nat :=
  ANIM_ORDER.foldl
    (fun acc sp =>
      let pname := resolveSource charName sp.2
      if pname = "" then acc
      else if fs.animDirExists pname then scanFirstDir fs pname acc
      else acc)
    0

/-- The enemy row plan `ENEMY_ANIM_ORDER.get(enemy_name, [])`. -/
def enemyRowPlan (enemyName : String) : List (String × String) :=
  (ENEMY_ANIM_ORDER.lookup enemyName).getD []

/-- `count_enemy_max_frames`. -/
def count_enemy_max_frames (fs : CharFS) (enemyName : String) : Nat :=
  (enemyRowPlan enemyName).foldl
    (fun acc sp =>
      let pname := sp.2
      if pname = "" then acc
      else if fs.animDirExists pname then scanFirstDir fs pname acc
      else acc)
    0

/-- One recorded metadata entry `{"row": ..., "frames": ..., "source": ...}`. -/
structure AnimMeta where
  row : Nat
  frames : Nat
  source : String
deriving DecidableEq, Repr

/-- The `for col, frame_path in enumerate(frames)` paste loop: paste
`frames` left to right into row `row` starting at column `col`. -/
def pasteFrames (sheet : Image) (frames : List Image) (col row : Nat) : Image :=
  match frames with
  | [] => sheet
  | f :: rest =>
    pasteFrames (sheet.paste f (col * FRAME_SIZE) (row * FRAME_SIZE)) rest (col + 1) row

/-- The shared row loop of `create_sprite_sheet` and
`create_enemy_sprite_sheet`: resolve each row's source name, skip empty
names (`if not pixellab_name: continue`) and empty frame sequences
(`if not frames: ... continue`), otherwise paste the frames and record the
row's metadata entry. -/
def composeRows (fs : CharFS) (charName : String) (direction : Direction)
    (entries : List (String × Option String)) (row : Nat)
    (sheet : Image) (meta : List (String × AnimMeta)) :
    Image × List (String × AnimMeta) :=
  match entries with
  | [] => (sheet, meta)
  | (stateName, src) :: rest =>
    let pname := resolveSource charName src
    if pname = "" then
      composeRows fs charName direction rest (row + 1) sheet meta
    else
      let frames := get_frame_files fs pname direction
      if frames.isEmpty then
        composeRows fs charName direction rest (row + 1) sheet meta
      else
        composeRows fs charName direction rest (row + 1)
          (pasteFrames sheet frames 0 row)
          (meta ++ [(stateName, ⟨row, frames.length, pname⟩)])

/-- `create_sprite_sheet`. -/
def create_sprite_sheet (fs : CharFS) (charName : String) (direction : Direction)
    (maxFrames : Nat) : Image × List (String × AnimMeta) :=
  composeRows fs charName direction ANIM_ORDER 0
    (Image.new (maxFrames * FRAME_SIZE) (ANIM_ORDER.length * FRAME_SIZE)) []

/-- `create_enemy_sprite_sheet`: same loop over the enemy row plan (its
already-resolved source names are fed through `resolveSource` via `some`). -/
def create_enemy_sprite_sheet (fs : CharFS) (enemyName : String)
    (direction : Direction) (maxFrames : Nat) : Image × List (String × AnimMeta) :=
  composeRows fs enemyName direction
    ((enemyRowPlan enemyName).map (fun sp => (sp.1, some sp.2))) 0
    (Image.new (maxFrames * FRAME_SIZE) ((enemyRowPlan enemyName).length * FRAME_SIZE)) []

/-- Per-direction slice of the aggregate metadata document. -/
structure DirMeta where
  sheetPath : String
  animations : List (String × AnimMeta)

/-- Per-character slice of the aggregate metadata document. -/
structure CharMeta where
  character : String
  frame_size : Nat
  max_frames : Nat
  directions : List (Direction × DirMeta)

/-- `process_character`: compute `max_frames` once, then compose and save
one sheet per direction.  Returns the written files (name, image) in
order, and the character's metadata. -/
def process_character (fs : CharFS) (charName : String) :
    List (String × Image) × CharMeta :=
  let maxFrames := count_max_frames fs charName
  let results := DIRECTIONS.map (fun d =>
    let sm := create_sprite_sheet fs charName d maxFrames
    let outName := charName ++ "_" ++ dirName d ++ ".png"
    ((outName, sm.1), (d, DirMeta.mk ("pixellab/sheets/" ++ outName) sm.2)))
  (results.map (fun p => p.1),
   { character := charName, frame_size := FRAME_SIZE, max_frames := maxFrames,
     directions := results.map (fun p => p.2) })

/-- Per-enemy slice of the aggregate metadata document. -/
structure EnemyMeta where
  enemy : String
  frame_size : Nat
  max_frames : Nat
  directions : List (Direction × DirMeta)

/-- `process_enemy`. -/
def process_enemy (fs : CharFS) (enemyName : String) :
    List (String × Image) × EnemyMeta :=
  let maxFrames := count_enemy_max_frames fs enemyName
  let results := DIRECTIONS.map (fun d =>
    let sm := create_enemy_sprite_sheet fs enemyName d maxFrames
    let outName := enemyName ++ "_" ++ dirName d ++ ".png"
    ((outName, sm.1), (d, DirMeta.mk ("pixellab/sheets/" ++ outName) sm.2)))
  (results.map (fun p => p.1),
   { enemy := enemyName, frame_size := FRAME_SIZE, max_frames := maxFrames,
     directions := results.map (fun p => p.2) })

/-- One entry of a directory listing: its name, whether it is a
directory, whether it contains an `animations/` subtree, and its
filesystem view. -/
structure EntityDir where
  name : String
  isDir : Bool
  hasAnims : Bool
  fs : CharFS

/-- The root asset tree: the top-level entries of the `pixellab`
directory (in arbitrary enumeration order) and the `enemies/`
subdirectory's entries. -/
structure Root where
  entries : List EntityDir
  enemiesExists : Bool
  enemies : List EntityDir

/-- `skip_dirs = {"sheets", "enemies", "objects", "tilesets"}`. -/
def skipDirs : List String := ["sheets", "enemies", "objects", "tilesets"]

/-- Ordering of directory entries by name, as produced by
`sorted(pixellab_dir.iterdir())`. -/
def nameLe (a b : EntityDir) : Prop := a.name ≤ b.name

instance : DecidableRel nameLe :=
  fun a b => inferInstanceAs (Decidable (a.name ≤ b.name))

instance : IsTotal EntityDir nameLe := ⟨fun a b => le_total a.name b.name⟩

instance : IsTrans EntityDir nameLe := ⟨fun _ _ _ h h' => le_trans h h'⟩

/-- A value of the aggregate metadata document (hero or enemy slice). -/
inductive EntityMeta where
  | hero (m : CharMeta)
  | enemy (m : EnemyMeta)

/-- The hero-loop condition:
`char_dir.is_dir() and char_dir.name not in skip_dirs` with the nested
`anims_dir.exists()` check. -/
def heroCond (e : EntityDir) : Bool :=
  e.isDir && !(skipDirs.contains e.name) && e.hasAnims

/-- The enemy-loop condition:
`enemy_dir.is_dir() and enemy_dir.name in ENEMY_ANIM_ORDER`. -/
def enemyCond (e : EntityDir) : Bool :=
  e.isDir && (ENEMY_ANIM_ORDER.lookup e.name).isSome

/-- The hero loop of `main`: process each selected entry in listing
order, accumulating written files and metadata entries. -/
def processHeroes : List EntityDir → List (String × Image) × List (String × EntityMeta)
  | [] => ([], [])
  | e :: rest =>
    let tail := processHeroes rest
    if heroCond e then
      let pc := process_character e.fs e.name
      (pc.1 ++ tail.1, (e.name, EntityMeta.hero pc.2) :: tail.2)
    else tail

/-- The enemy loop of `main`. -/
def processEnemies : List EntityDir → List (String × Image) × List (String × EntityMeta)
  | [] => ([], [])
  | e :: rest =>
    let tail := processEnemies rest
    if enemyCond e then
      let pe := process_enemy e.fs e.name
      (pe.1 ++ tail.1, (e.name, EntityMeta.enemy pe.2) :: tail.2)
    else tail

/-- Python `dict` insertion, preserving insertion order: overwrite the
value in place when the key exists, otherwise append. -/
def dictInsert (l : List (String × EntityMeta)) (k : String) (v : EntityMeta) :
    List (String × EntityMeta) :=
  if (l.lookup k).isSome then
    l.map (fun p => if p.1 = k then (k, v) else p)
  else
    l ++ [(k, v)]

/-- Insert a list of key/value pairs into a dict, left to right. -/
def dictInsertAll (init items : List (String × EntityMeta)) :
    List (String × EntityMeta) :=
  items.foldl (fun acc kv => dictInsert acc kv.1 kv.2) init

/-- Observable outcome of one run of `main`: whether the fatal
diagnostic was printed, whether the output directory was created, the
sheet files written (in order), the metadata document written (if any),
and the process exit status.  The script never calls `sys.exit`; `main`
plainly returns in both branches, so the interpreter exits with status 0
either way. -/
structure MainResult where
  fatalError : Bool
  outputDirCreated : Bool
  files : List (String × Image)
  metadataDoc : Option (List (String × EntityMeta))
  exitCode : Nat

/-- `main`: `none` models an absent root asset directory (the
`if not pixellab_dir.exists()` branch). -/
def runMain (root : Option Root) : MainResult :=
  match root with
  | none =>
    { fatalError := true, outputDirCreated := false, files := [],
      metadataDoc := none, exitCode := 0 }
  | some r =>
    let hres := processHeroes (List.insertionSort nameLe r.entries)
    let eres :=
      if r.enemiesExists then processEnemies (List.insertionSort nameLe r.enemies)
      else ([], [])
    { fatalError := false, outputDirCreated := true,
      files := hres.1 ++ eres.1,
      metadataDoc := some (dictInsertAll (dictInsertAll [] hres.2) eres.2),
      exitCode := 0 }

/-- Filesystem coherence: a missing `animations/<name>` directory has no
frame subdirectories, so every frame query below it is empty. -/
def CharFS.WellFormed (fs : CharFS) : Prop :=
  ∀ p d, fs.animDirExists p = false → get_frame_files fs p d = []

/-- "Frame pixel dimensions are trusted to not exceed the cell size":
every frame on disk fits into one 64×64 cell. -/
def SmallFrames (fs : CharFS) : Prop :=
  ∀ p d f, f ∈ get_frame_files fs p d → f.width ≤ FRAME_SIZE ∧ f.height ≤ FRAME_SIZE

/-- Modelled from the spec (§4.3): the length of the FrameSequence of the
first direction, in fixed iteration order, that has any frames for a
row's source name; `0` when the row has an empty source name or no
direction has frames. -/
def rowSample (fs : CharFS) (pname : String) : Nat :=
  if pname = "" then 0
  else
    match DIRECTIONS.find? (fun d => !(get_frame_files fs pname d).isEmpty) with
    | some d => (get_frame_files fs pname d).length
    | none => 0

/-- Modelled from the spec (§4.3): the largest sampled FrameSequence
length across a plan's rows. -/
def samplingMax (fs : CharFS) (names : List String) : Nat :=
  (names.map (rowSample fs)).foldl max 0

/-- The resolved source names of the hero row plan, in row order. -/
def heroPlanNames (charName : String) : List String :=
  ANIM_ORDER.map (fun sp => resolveSource charName sp.2)

/-- The source names of an enemy's row plan, in row order. -/
def enemyPlanNames (enemyName : String) : List String :=
  (enemyRowPlan enemyName).map (fun sp => sp.2)

/-! ### Concrete fixtures used by witness and counterexample theorems -/

/-- An opaque 64×64 test frame. -/
def img64 : Image :=
  { width := FRAME_SIZE, height := FRAME_SIZE, pix := fun _ _ => (1, 2, 3, 4) }

/-- A filesystem with no directories and no frames at all. -/
def fsEmpty : CharFS :=
  { animDirExists := fun _ => false,
    frameDirExists := fun _ _ => false,
    framesOnDisk := fun _ _ => [] }

/-- A filesystem where `breathing-idle` has two frames facing south and
three facing east, and nothing else exists on disk. -/
def fsSample : CharFS :=
  { animDirExists := fun _ => true,
    frameDirExists := fun p d =>
      p == "breathing-idle" && (d == Direction.south || d == Direction.east),
    framesOnDisk := fun _ d =>
      List.replicate (if d == Direction.east then 3 else 2) img64 }

/-- A hero directory entry holding no frames. -/
def entBolt : EntityDir :=
  { name := "bolt", isDir := true, hasAnims := true, fs := fsEmpty }

/-- An enemy directory entry whose kind is not in the enemy table. -/
def entGhost : EntityDir :=
  { name := "ghost", isDir := true, hasAnims := true, fs := fsEmpty }

/-- A root tree with one hero directory and one unknown enemy kind. -/
def rootSample : Root :=
  { entries := [entBolt], enemiesExists := true, enemies := [entGhost] }

/-- A second hero directory entry. -/
def entAlice : EntityDir :=
  { name := "alice", isDir := true, hasAnims := true, fs := fsEmpty }

/-- A directory entry without an `animations/` subtree. -/
def entPlain : EntityDir :=
  { name := "plain", isDir := true, hasAnims := false, fs := fsEmpty }

/-- Two listings of the same two hero directories in different
enumeration orders. -/
def rootPairA : Root :=
  { entries := [entAlice, entBolt], enemiesExists := false, enemies := [] }

/-- See `rootPairA`. -/
def rootPairB : Root :=
  { entries := [entBolt, entAlice], enemiesExists := false, enemies := [] }

/-- A root tree whose only entry has no `animations/` subtree. -/
def rootPlain : Root :=
  { entries := [entPlain], enemiesExists := false, enemies := [] }

/-! ### Basic image and paste-loop lemmas -/

theorem pasteFrames_width : ∀ (frames : List Image) (s : Image) (col row : Nat),
    (pasteFrames s frames col row).width = s.width := by
  intro frames
  induction frames with
  | nil => intro s col row; rfl
  | cons f rest ih =>
    intro s col row
    simp only [pasteFrames]
    rw [ih]
    rfl

theorem pasteFrames_height : ∀ (frames : List Image) (s : Image) (col row : Nat),
    (pasteFrames s frames col row).height = s.height := by
  intro frames
  induction frames with
  | nil => intro s col row; rfl
  | cons f rest ih =>
    intro s col row
    simp only [pasteFrames]
    rw [ih]
    rfl

/-- A pixel below the pasted row band, or left of the first pasted
column, is untouched by the paste loop. -/
theorem pasteFrames_pix_out : ∀ (frames : List Image) (s : Image) (col row x y : Nat),
    (y < row * FRAME_SIZE ∨ x < col * FRAME_SIZE) →
    (pasteFrames s frames col row).pix x y = s.pix x y := by
  intro frames
  induction frames with
  | nil => intro s col row x y _; rfl
  | cons f rest ih =>
    intro s col row x y hout
    simp only [pasteFrames]
    have hcond : ¬(col * FRAME_SIZE ≤ x ∧ x < col * FRAME_SIZE + f.width ∧
        row * FRAME_SIZE ≤ y ∧ y < row * FRAME_SIZE + f.height) := by
      simp only [FRAME_SIZE] at hout ⊢
      omega
    have hrec := ih (s.paste f (col * FRAME_SIZE) (row * FRAME_SIZE)) (col + 1) row x y
      (by
        simp only [FRAME_SIZE] at hout ⊢
        omega)
    rw [hrec]
    simp only [Image.paste]
    rw [if_neg hcond]

/-- A pixel above the pasted row band, or at or right of the first
column past the pasted frames, is untouched by the paste loop (frames
are trusted to fit inside one cell). -/
theorem pasteFrames_pix_far : ∀ (frames : List Image) (s : Image) (col row x y : Nat),
    (∀ f ∈ frames, f.width ≤ FRAME_SIZE ∧ f.height ≤ FRAME_SIZE) →
    ((row + 1) * FRAME_SIZE ≤ y ∨ (col + frames.length) * FRAME_SIZE ≤ x) →
    (pasteFrames s frames col row).pix x y = s.pix x y := by
  intro frames
  induction frames with
  | nil => intro s col row x y _ _; rfl
  | cons f rest ih =>
    intro s col row x y hsz hfar
    obtain ⟨hw, hh⟩ := hsz f (by simp)
    simp only [pasteFrames]
    have hcond : ¬(col * FRAME_SIZE ≤ x ∧ x < col * FRAME_SIZE + f.width ∧
        row * FRAME_SIZE ≤ y ∧ y < row * FRAME_SIZE + f.height) := by
      simp only [List.length_cons, FRAME_SIZE] at hfar hw hh ⊢
      omega
    have hrec := ih (s.paste f (col * FRAME_SIZE) (row * FRAME_SIZE)) (col + 1) row x y
      (fun g hg => hsz g (by simp [hg]))
      (by
        simp only [List.length_cons, FRAME_SIZE] at hfar ⊢
        omega)
    rw [hrec]
    simp only [Image.paste]
    rw [if_neg hcond]

/-- The paste loop writes frame `k`, top-left-anchored, into cell
`(row, col + k)`, and no later paste of the same loop overwrites it. -/
theorem pasteFrames_pix_content : ∀ (frames : List Image) (s : Image) (col row : Nat)
    (k : Nat) (hk : k < frames.length) (dx dy : Nat),
    (∀ f ∈ frames, f.width ≤ FRAME_SIZE ∧ f.height ≤ FRAME_SIZE) →
    dx < (frames.get ⟨k, hk⟩).width → dy < (frames.get ⟨k, hk⟩).height →
    (pasteFrames s frames col row).pix ((col + k) * FRAME_SIZE + dx) (row * FRAME_SIZE + dy)
      = (frames.get ⟨k, hk⟩).pix dx dy := by
  intro frames
  induction frames with
  | nil =>
    intro s col row k hk
    exact absurd hk (by simp)
  | cons f rest ih =>
    intro s col row k hk dx dy hsz hdx hdy
    match k with
    | 0 =>
      obtain ⟨hw, hh⟩ := hsz f (by simp)
      simp only [List.get] at hdx hdy ⊢
      simp only [pasteFrames]
      have hout : (pasteFrames (s.paste f (col * FRAME_SIZE) (row * FRAME_SIZE))
            rest (col + 1) row).pix ((col + 0) * FRAME_SIZE + dx) (row * FRAME_SIZE + dy)
          = (s.paste f (col * FRAME_SIZE) (row * FRAME_SIZE)).pix
              ((col + 0) * FRAME_SIZE + dx) (row * FRAME_SIZE + dy) := by
        apply pasteFrames_pix_out
        right
        simp only [FRAME_SIZE] at hdx hw ⊢
        omega
      rw [hout]
      simp only [Image.paste, Nat.add_zero]
      rw [if_pos]
      · congr 1 <;> omega
      · refine ⟨by omega, by omega, by omega, by omega⟩
    | k' + 1 =>
      have harith : (col + (k' + 1)) * FRAME_SIZE = ((col + 1) + k') * FRAME_SIZE := by
        congr 1
        omega
      simp only [List.get] at hdx hdy ⊢
      simp only [pasteFrames, harith]
      exact ih (s.paste f (col * FRAME_SIZE) (row * FRAME_SIZE)) (col + 1) row k'
        (by simpa using hk) dx dy (fun g hg => hsz g (by simp [hg])) hdx hdy

/-! ### Row-loop unfolding equations -/

theorem composeRows_nil (fs : CharFS) (c : String) (d : Direction) (row : Nat)
    (sheet : Image) (meta : List (String × AnimMeta)) :
    composeRows fs c d [] row sheet meta = (sheet, meta) := rfl

theorem composeRows_cons_skip (fs : CharFS) (c : String) (d : Direction)
    (st : String) (src : Option String) (rest : List (String × Option String))
    (row : Nat) (sheet : Image) (meta : List (String × AnimMeta))
    (h : resolveSource c src = "") :
    composeRows fs c d ((st, src) :: rest) row sheet meta
      = composeRows fs c d rest (row + 1) sheet meta := by
  simp only [composeRows, h]
  simp

theorem composeRows_cons_empty (fs : CharFS) (c : String) (d : Direction)
    (st : String) (src : Option String) (rest : List (String × Option String))
    (row : Nat) (sheet : Image) (meta : List (String × AnimMeta))
    (h : resolveSource c src ≠ "")
    (h2 : get_frame_files fs (resolveSource c src) d = []) :
    composeRows fs c d ((st, src) :: rest) row sheet meta
      = composeRows fs c d rest (row + 1) sheet meta := by
  simp only [composeRows]
  rw [if_neg h, if_pos (by simp [h2])]

theorem composeRows_cons_emit (fs : CharFS) (c : String) (d : Direction)
    (st : String) (src : Option String) (rest : List (String × Option String))
    (row : Nat) (sheet : Image) (meta : List (String × AnimMeta))
    (h : resolveSource c src ≠ "")
    (h2 : get_frame_files fs (resolveSource c src) d ≠ []) :
    composeRows fs c d ((st, src) :: rest) row sheet meta
      = composeRows fs c d rest (row + 1)
          (pasteFrames sheet (get_frame_files fs (resolveSource c src) d) 0 row)
          (meta ++ [(st, ⟨row, (get_frame_files fs (resolveSource c src) d).length,
                          resolveSource c src⟩)]) := by
  simp only [composeRows]
  rw [if_neg h, if_neg (by simp [h2])]

/-! ### Row-loop dimension and pixel-preservation lemmas -/

theorem composeRows_fst_width : ∀ (entries : List (String × Option String))
    (fs : CharFS) (c : String) (d : Direction) (row : Nat)
    (sheet : Image) (meta : List (String × AnimMeta)),
    (composeRows fs c d entries row sheet meta).1.width = sheet.width := by
  intro entries
  induction entries with
  | nil => intro fs c d row sheet meta; rfl
  | cons e rest ih =>
    intro fs c d row sheet meta
    obtain ⟨st, src⟩ := e
    by_cases h1 : resolveSource c src = ""
    · rw [composeRows_cons_skip fs c d st src rest row sheet meta h1]
      exact ih fs c d (row + 1) sheet meta
    · by_cases h2 : get_frame_files fs (resolveSource c src) d = []
      · rw [composeRows_cons_empty fs c d st src rest row sheet meta h1 h2]
        exact ih fs c d (row + 1) sheet meta
      · rw [composeRows_cons_emit fs c d st src rest row sheet meta h1 h2]
        rw [ih]
        exact pasteFrames_width _ _ _ _

theorem composeRows_fst_height : ∀ (entries : List (String × Option String))
    (fs : CharFS) (c : String) (d : Direction) (row : Nat)
    (sheet : Image) (meta : List (String × AnimMeta)),
    (composeRows fs c d entries row sheet meta).1.height = sheet.height := by
  intro entries
  induction entries with
  | nil => intro fs c d row sheet meta; rfl
  | cons e rest ih =>
    intro fs c d row sheet meta
    obtain ⟨st, src⟩ := e
    by_cases h1 : resolveSource c src = ""
    · rw [composeRows_cons_skip fs c d st src rest row sheet meta h1]
      exact ih fs c d (row + 1) sheet meta
    · by_cases h2 : get_frame_files fs (resolveSource c src) d = []
      · rw [composeRows_cons_empty fs c d st src rest row sheet meta h1 h2]
        exact ih fs c d (row + 1) sheet meta
      · rw [composeRows_cons_emit fs c d st src rest row sheet meta h1 h2]
        rw [ih]
        exact pasteFrames_height _ _ _ _

/-- Pixels strictly below the row band where the loop starts are never
touched by the remaining rows. -/
theorem composeRows_pix_lowY : ∀ (entries : List (String × Option String))
    (fs : CharFS) (c : String) (d : Direction) (row : Nat)
    (sheet : Image) (meta : List (String × AnimMeta)) (x y : Nat),
    y < row * FRAME_SIZE →
    (composeRows fs c d entries row sheet meta).1.pix x y = sheet.pix x y := by
  intro entries
  induction entries with
  | nil => intro fs c d row sheet meta x y _; rfl
  | cons e rest ih =>
    intro fs c d row sheet meta x y hy
    obtain ⟨st, src⟩ := e
    have hy' : y < (row + 1) * FRAME_SIZE := by
      simp only [FRAME_SIZE] at hy ⊢
      omega
    by_cases h1 : resolveSource c src = ""
    · rw [composeRows_cons_skip fs c d st src rest row sheet meta h1]
      exact ih fs c d (row + 1) sheet meta x y hy'
    · by_cases h2 : get_frame_files fs (resolveSource c src) d = []
      · rw [composeRows_cons_empty fs c d st src rest row sheet meta h1 h2]
        exact ih fs c d (row + 1) sheet meta x y hy'
      · rw [composeRows_cons_emit fs c d st src rest row sheet meta h1 h2]
        rw [ih fs c d (row + 1) _ _ x y hy']
        exact pasteFrames_pix_out _ sheet 0 row x y (Or.inl hy)

/-! ### Association-list lookup helpers -/

theorem lookup_append {β : Type} (l l' : List (String × β)) (k : String) :
    (l ++ l').lookup k = ((l.lookup k).or (l'.lookup k)) := by
  induction l with
  | nil => simp [List.lookup, Option.or]
  | cons p rest ih =>
    obtain ⟨a, b⟩ := p
    by_cases h : k == a
    · simp [List.lookup, h, Option.or]
    · simp only [List.cons_append, List.lookup, h]
      exact ih

theorem lookup_single_ne {β : Type} (a k : String) (v : β) (h : k ≠ a) :
    ([(a, v)] : List (String × β)).lookup k = none := by
  have hb : (k == a) = false := beq_eq_false_iff_ne.mpr h
  simp [List.lookup, hb]

theorem lookup_single_eq {β : Type} (k : String) (v : β) :
    ([(k, v)] : List (String × β)).lookup k = some v := by
  simp [List.lookup]

/-! ### Row-loop metadata lemmas -/

/-- A metadata entry already recorded for a state no later row mentions
survives the rest of the loop. -/
theorem composeRows_lookup_pres : ∀ (entries : List (String × Option String))
    (fs : CharFS) (c : String) (d : Direction) (row : Nat)
    (sheet : Image) (meta : List (String × AnimMeta)) (st : String) (v : AnimMeta),
    meta.lookup st = some v →
    (∀ e ∈ entries, e.1 ≠ st) →
    (composeRows fs c d entries row sheet meta).2.lookup st = some v := by
  intro entries
  induction entries with
  | nil => intro fs c d row sheet meta st v hv _; exact hv
  | cons e rest ih =>
    intro fs c d row sheet meta st v hv hne
    obtain ⟨st0, src⟩ := e
    have hne0 : st0 ≠ st := hne (st0, src) (by simp)
    have hnerest : ∀ e ∈ rest, e.1 ≠ st := fun e he => hne e (by simp [he])
    by_cases h1 : resolveSource c src = ""
    · rw [composeRows_cons_skip fs c d st0 src rest row sheet meta h1]
      exact ih fs c d (row + 1) sheet meta st v hv hnerest
    · by_cases h2 : get_frame_files fs (resolveSource c src) d = []
      · rw [composeRows_cons_empty fs c d st0 src rest row sheet meta h1 h2]
        exact ih fs c d (row + 1) sheet meta st v hv hnerest
      · rw [composeRows_cons_emit fs c d st0 src rest row sheet meta h1 h2]
        refine ih fs c d (row + 1) _ _ st v ?_ hnerest
        rw [lookup_append, hv]
        rfl

/-- No metadata entry appears for a state whose every occurrence in the
remaining rows is skipped (empty resolved name or empty frame sequence). -/
theorem composeRows_lookup_none : ∀ (entries : List (String × Option String))
    (fs : CharFS) (c : String) (d : Direction) (row : Nat)
    (sheet : Image) (meta : List (String × AnimMeta)) (st : String),
    meta.lookup st = none →
    (∀ (j : Nat) (e : String × Option String), entries[j]? = some e → e.1 = st →
       resolveSource c e.2 = "" ∨ get_frame_files fs (resolveSource c e.2) d = []) →
    (composeRows fs c d entries row sheet meta).2.lookup st = none := by
  intro entries
  induction entries with
  | nil => intro fs c d row sheet meta st hm _; exact hm
  | cons e rest ih =>
    intro fs c d row sheet meta st hm hskip
    obtain ⟨st0, src⟩ := e
    have hskiprest : ∀ (j : Nat) (e : String × Option String), rest[j]? = some e → e.1 = st →
        resolveSource c e.2 = "" ∨ get_frame_files fs (resolveSource c e.2) d = [] :=
      fun j e hj he => hskip (j + 1) e (by simpa using hj) he
    by_cases h1 : resolveSource c src = ""
    · rw [composeRows_cons_skip fs c d st0 src rest row sheet meta h1]
      exact ih fs c d (row + 1) sheet meta st hm hskiprest
    · by_cases h2 : get_frame_files fs (resolveSource c src) d = []
      · rw [composeRows_cons_empty fs c d st0 src rest row sheet meta h1 h2]
        exact ih fs c d (row + 1) sheet meta st hm hskiprest
      · have hne0 : st0 ≠ st := by
          intro hcontra
          rcases hskip 0 (st0, src) (by simp) hcontra with hc | hc
          · exact h1 hc
          · exact h2 hc
        rw [composeRows_cons_emit fs c d st0 src rest row sheet meta h1 h2]
        refine ih fs c d (row + 1) _ _ st ?_ hskiprest
        rw [lookup_append, hm]
        have : ([(st0, (⟨row, (get_frame_files fs (resolveSource c src) d).length,
            resolveSource c src⟩ : AnimMeta))] : List (String × AnimMeta)).lookup st = none :=
          lookup_single_ne st0 st _ (fun h => hne0 h.symm)
        rw [this]
        rfl

/-- The row at index `i`, when its resolved name is non-empty and its
frame sequence non-empty, records exactly
`{row := row + i, frames := N, source := pname}` for its state. -/
theorem composeRows_emit : ∀ (entries : List (String × Option String)) (i : Nat)
    (fs : CharFS) (c : String) (d : Direction) (row : Nat)
    (sheet : Image) (meta : List (String × AnimMeta)) (st : String) (src : Option String),
    entries[i]? = some (st, src) →
    resolveSource c src ≠ "" →
    get_frame_files fs (resolveSource c src) d ≠ [] →
    meta.lookup st = none →
    (∀ (j : Nat) (e : String × Option String), j ≠ i → entries[j]? = some e → e.1 ≠ st) →
    (composeRows fs c d entries row sheet meta).2.lookup st
      = some ⟨row + i, (get_frame_files fs (resolveSource c src) d).length,
              resolveSource c src⟩ := by
  intro entries
  induction entries with
  | nil =>
    intro i fs c d row sheet meta st src hi
    simp at hi
  | cons e rest ih =>
    intro i fs c d row sheet meta st src hi hname hframes hm hother
    obtain ⟨st0, src0⟩ := e
    match i with
    | 0 =>
      simp only [List.getElem?_cons_zero, Option.some.injEq, Prod.mk.injEq] at hi
      obtain ⟨rfl, rfl⟩ := hi
      rw [composeRows_cons_emit fs c d _ _ rest row sheet meta hname hframes]
      rw [Nat.add_zero]
      refine composeRows_lookup_pres rest fs c d (row + 1) _ _ _ _ ?_ ?_
      · rw [lookup_append, hm, lookup_single_eq]
        rfl
      · intro e he
        obtain ⟨j, hj⟩ := List.mem_iff_getElem?.mp he
        exact hother (j + 1) e (by omega) (by simpa using hj)
    | i' + 1 =>
      have hi' : rest[i']? = some (st, src) := by simpa using hi
      have hother' : ∀ (j : Nat) (e : String × Option String), j ≠ i' → rest[j]? = some e → e.1 ≠ st :=
        fun j e hj hje => hother (j + 1) e (by omega) (by simpa using hje)
      have hne0 : st0 ≠ st := hother 0 (st0, src0) (by omega) (by simp)
      have harith : row + (i' + 1) = (row + 1) + i' := by omega
      rw [harith]
      by_cases h1 : resolveSource c src0 = ""
      · rw [composeRows_cons_skip fs c d st0 src0 rest row sheet meta h1]
        exact ih i' fs c d (row + 1) sheet meta st src hi' hname hframes hm hother'
      · by_cases h2 : get_frame_files fs (resolveSource c src0) d = []
        · rw [composeRows_cons_empty fs c d st0 src0 rest row sheet meta h1 h2]
          exact ih i' fs c d (row + 1) sheet meta st src hi' hname hframes hm hother'
        · rw [composeRows_cons_emit fs c d st0 src0 rest row sheet meta h1 h2]
          refine ih i' fs c d (row + 1) _ _ st src hi' hname hframes ?_ hother'
          rw [lookup_append, hm]
          rw [lookup_single_ne st0 st _ (fun h => hne0 h.symm)]
          rfl

/-! ### Row-loop pixel lemmas -/

/-- Frames of the row at index `i` are pasted top-left-anchored into
columns `0..N-1` of row band `row + i`, and nothing later overwrites
them. -/
theorem composeRows_content : ∀ (entries : List (String × Option String)) (i : Nat)
    (fs : CharFS) (c : String) (d : Direction) (row : Nat)
    (sheet : Image) (meta : List (String × AnimMeta)) (st : String) (src : Option String),
    entries[i]? = some (st, src) →
    resolveSource c src ≠ "" →
    SmallFrames fs →
    ∀ (k : Nat) (hk : k < (get_frame_files fs (resolveSource c src) d).length) (dx dy : Nat),
    dx < ((get_frame_files fs (resolveSource c src) d).get ⟨k, hk⟩).width →
    dy < ((get_frame_files fs (resolveSource c src) d).get ⟨k, hk⟩).height →
    (composeRows fs c d entries row sheet meta).1.pix
        (k * FRAME_SIZE + dx) ((row + i) * FRAME_SIZE + dy)
      = ((get_frame_files fs (resolveSource c src) d).get ⟨k, hk⟩).pix dx dy := by
  intro entries
  induction entries with
  | nil =>
    intro i fs c d row sheet meta st src hi
    simp at hi
  | cons e rest ih =>
    intro i fs c d row sheet meta st src hi hname hsmall k hk dx dy hdx hdy
    obtain ⟨st0, src0⟩ := e
    match i with
    | 0 =>
      simp only [List.getElem?_cons_zero, Option.some.injEq, Prod.mk.injEq] at hi
      obtain ⟨rfl, rfl⟩ := hi
      have hframes : get_frame_files fs (resolveSource c src0) d ≠ [] := by
        intro hempty
        rw [hempty] at hk
        simp at hk
      rw [composeRows_cons_emit fs c d _ _ rest row sheet meta hname hframes]
      have hfsz : ∀ f ∈ get_frame_files fs (resolveSource c src0) d,
          f.width ≤ FRAME_SIZE ∧ f.height ≤ FRAME_SIZE :=
        fun f hf => hsmall (resolveSource c src0) d f hf
      have hhk : ((get_frame_files fs (resolveSource c src0) d).get ⟨k, hk⟩).height
          ≤ FRAME_SIZE :=
        (hfsz _ (List.get_mem _ _ hk)).2
      have hy : (row + 0) * FRAME_SIZE + dy < (row + 1) * FRAME_SIZE := by
        simp only [FRAME_SIZE] at hdy hhk ⊢
        omega
      rw [composeRows_pix_lowY rest fs c d (row + 1) _ _ _ _ hy]
      have := pasteFrames_pix_content (get_frame_files fs (resolveSource c src0) d)
        sheet 0 row k hk dx dy hfsz hdx hdy
      simpa using this
    | i' + 1 =>
      have hi' : rest[i']? = some (st, src) := by simpa using hi
      have harith : (row + (i' + 1)) * FRAME_SIZE = ((row + 1) + i') * FRAME_SIZE := by
        congr 1
        omega
      rw [harith]
      by_cases h1 : resolveSource c src0 = ""
      · rw [composeRows_cons_skip fs c d st0 src0 rest row sheet meta h1]
        exact ih i' fs c d (row + 1) sheet meta st src hi' hname hsmall k hk dx dy hdx hdy
      · by_cases h2 : get_frame_files fs (resolveSource c src0) d = []
        · rw [composeRows_cons_empty fs c d st0 src0 rest row sheet meta h1 h2]
          exact ih i' fs c d (row + 1) sheet meta st src hi' hname hsmall k hk dx dy hdx hdy
        · rw [composeRows_cons_emit fs c d st0 src0 rest row sheet meta h1 h2]
          exact ih i' fs c d (row + 1) _ _ st src hi' hname hsmall k hk dx dy hdx hdy

/-- In the row band of index `i`, every cell column at or past that
row's frame count stays transparent (also when the row is skipped),
provided the band started out transparent. -/
theorem composeRows_transparent : ∀ (entries : List (String × Option String)) (i : Nat)
    (fs : CharFS) (c : String) (d : Direction) (row : Nat)
    (sheet : Image) (meta : List (String × AnimMeta)) (st : String) (src : Option String)
    (c0 dx dy : Nat),
    entries[i]? = some (st, src) →
    SmallFrames fs →
    (∀ x y, (row + i) * FRAME_SIZE ≤ y → y < (row + i) * FRAME_SIZE + FRAME_SIZE →
       sheet.pix x y = transparentPixel) →
    (resolveSource c src = "" ∨ (get_frame_files fs (resolveSource c src) d).length ≤ c0) →
    dx < FRAME_SIZE → dy < FRAME_SIZE →
    (composeRows fs c d entries row sheet meta).1.pix
        (c0 * FRAME_SIZE + dx) ((row + i) * FRAME_SIZE + dy) = transparentPixel := by
  intro entries
  induction entries with
  | nil =>
    intro i fs c d row sheet meta st src c0 dx dy hi
    simp at hi
  | cons e rest ih =>
    intro i fs c d row sheet meta st src c0 dx dy hi hsmall htr hcol hdx hdy
    obtain ⟨st0, src0⟩ := e
    match i with
    | 0 =>
      simp only [List.getElem?_cons_zero, Option.some.injEq, Prod.mk.injEq] at hi
      obtain ⟨rfl, rfl⟩ := hi
      have hy : (row + 0) * FRAME_SIZE + dy < (row + 1) * FRAME_SIZE := by
        simp only [FRAME_SIZE] at hdy ⊢
        omega
      have hband : ∀ x y, (row + 0) * FRAME_SIZE ≤ y →
          y < (row + 0) * FRAME_SIZE + FRAME_SIZE → sheet.pix x y = transparentPixel := htr
      by_cases h1 : resolveSource c src0 = ""
      · rw [composeRows_cons_skip fs c d st0 src0 rest row sheet meta h1]
        rw [composeRows_pix_lowY rest fs c d (row + 1) _ _ _ _ hy]
        exact hband _ _ (by omega) (by simp only [FRAME_SIZE] at hdy ⊢; omega)
      · have hc0 : (get_frame_files fs (resolveSource c src0) d).length ≤ c0 := by
          rcases hcol with hcl | hcr
          · exact absurd hcl h1
          · exact hcr
        by_cases h2 : get_frame_files fs (resolveSource c src0) d = []
        · rw [composeRows_cons_empty fs c d st0 src0 rest row sheet meta h1 h2]
          rw [composeRows_pix_lowY rest fs c d (row + 1) _ _ _ _ hy]
          exact hband _ _ (by omega) (by simp only [FRAME_SIZE] at hdy ⊢; omega)
        · rw [composeRows_cons_emit fs c d st0 src0 rest row sheet meta h1 h2]
          rw [composeRows_pix_lowY rest fs c d (row + 1) _ _ _ _ hy]
          have hfsz : ∀ f ∈ get_frame_files fs (resolveSource c src0) d,
              f.width ≤ FRAME_SIZE ∧ f.height ≤ FRAME_SIZE :=
            fun f hf => hsmall (resolveSource c src0) d f hf
          have hfar := pasteFrames_pix_far (get_frame_files fs (resolveSource c src0) d)
            sheet 0 row (c0 * FRAME_SIZE + dx) ((row + 0) * FRAME_SIZE + dy) hfsz
            (by
              right
              simp only [FRAME_SIZE] at hc0 ⊢
              have : (get_frame_files fs (resolveSource c src0) d).length * 64
                  ≤ c0 * 64 := Nat.mul_le_mul_right 64 hc0
              omega)
          rw [hfar]
          exact hband _ _ (by omega) (by simp only [FRAME_SIZE] at hdy ⊢; omega)
    | i' + 1 =>
      have hi' : rest[i']? = some (st, src) := by simpa using hi
      have harith : (row + (i' + 1)) * FRAME_SIZE = ((row + 1) + i') * FRAME_SIZE := by
        congr 1
        omega
      rw [harith]
      by_cases h1 : resolveSource c src0 = ""
      · rw [composeRows_cons_skip fs c d st0 src0 rest row sheet meta h1]
        refine ih i' fs c d (row + 1) sheet meta st src c0 dx dy hi' hsmall ?_ hcol hdx hdy
        intro x y hy1 hy2
        exact htr x y (by rw [harith]; exact hy1) (by rw [harith]; exact hy2)
      · by_cases h2 : get_frame_files fs (resolveSource c src0) d = []
        · rw [composeRows_cons_empty fs c d st0 src0 rest row sheet meta h1 h2]
          refine ih i' fs c d (row + 1) sheet meta st src c0 dx dy hi' hsmall ?_ hcol hdx hdy
          intro x y hy1 hy2
          exact htr x y (by rw [harith]; exact hy1) (by rw [harith]; exact hy2)
        · rw [composeRows_cons_emit fs c d st0 src0 rest row sheet meta h1 h2]
          refine ih i' fs c d (row + 1) _ _ st src c0 dx dy hi' hsmall ?_ hcol hdx hdy
          intro x y hy1 hy2
          have hfsz : ∀ f ∈ get_frame_files fs (resolveSource c src0) d,
              f.width ≤ FRAME_SIZE ∧ f.height ≤ FRAME_SIZE :=
            fun f hf => hsmall (resolveSource c src0) d f hf
          have hfar := pasteFrames_pix_far (get_frame_files fs (resolveSource c src0) d)
            sheet 0 row x y hfsz
            (by
              left
              simp only [FRAME_SIZE] at hy1 ⊢
              omega)
          rw [hfar]
          exact htr x y (by rw [harith]; exact hy1) (by rw [harith]; exact hy2)

/-! ### Key distinctness helpers -/

theorem keys_nodup_ne {β : Type} (l : List (String × β))
    (hn : (l.map Prod.fst).Nodup) (i j : Nat) (e1 e2 : String × β)
    (hi : l[i]? = some e1) (hj : l[j]? = some e2) (hne : j ≠ i) :
    e2.1 ≠ e1.1 := by
  intro heq
  apply hne
  have hi' : (l.map Prod.fst)[i]? = some e1.1 := by
    rw [List.getElem?_map, hi]
    rfl
  have hj' : (l.map Prod.fst)[j]? = some e2.1 := by
    rw [List.getElem?_map, hj]
    rfl
  have hjlen : j < (l.map Prod.fst).length := by
    have hlt := (List.getElem?_eq_some_iff.mp hj).1
    simpa using hlt
  exact List.getElem?_inj hjlen hn (by rw [hj', hi', heq])

theorem enemyRowPlan_keys_nodup (kind : String) :
    ((enemyRowPlan kind).map Prod.fst).Nodup := by
  unfold enemyRowPlan ENEMY_ANIM_ORDER
  by_cases h1 : (kind == "slime") = true
  · simp only [List.lookup, h1]
    decide
  · have h1' : (kind == "slime") = false := by simpa using h1
    by_cases h2 : (kind == "bat") = true
    · simp only [List.lookup, h1', h2]
      decide
    · have h2' : (kind == "bat") = false := by simpa using h2
      by_cases h3 : (kind == "skeleton") = true
      · simp only [List.lookup, h1', h2', h3]
        decide
      · have h3' : (kind == "skeleton") = false := by simpa using h3
        simp only [List.lookup, h1', h2', h3']
        decide

/-! ### Max-frame counting versus the sampling rule -/

/-- One fold step of the counters equals folding in the row's sample. -/
theorem count_step_eq (fs : CharFS) (hwf : fs.WellFormed) (p : String) (acc : Nat) :
    (if p = "" then acc
     else if fs.animDirExists p then scanFirstDir fs p acc else acc)
      = max acc (rowSample fs p) := by
  by_cases h1 : p = ""
  · simp [h1, rowSample]
  · rw [if_neg h1]
    by_cases h2 : fs.animDirExists p = true
    · rw [if_pos h2]
      unfold scanFirstDir rowSample
      rw [if_neg h1]
      cases hfind : DIRECTIONS.find? (fun d => !(get_frame_files fs p d).isEmpty) with
      | none => simp
      | some d => rfl
    · rw [if_neg h2]
      have hall : ∀ d, get_frame_files fs p d = [] :=
        fun d => hwf p d (by simpa using h2)
      have hfind : DIRECTIONS.find? (fun d => !(get_frame_files fs p d).isEmpty) = none := by
        simp [DIRECTIONS, List.find?_cons, hall]
      unfold rowSample
      rw [if_neg h1, hfind]
      simp

/-- The counter folds are the running maximum of the row samples. -/
theorem count_fold_eq (fs : CharFS) (hwf : fs.WellFormed) :
    ∀ (names : List String) (acc : Nat),
    names.foldl
        (fun a p =>
          if p = "" then a
          else if fs.animDirExists p then scanFirstDir fs p a else a) acc
      = (names.map (rowSample fs)).foldl max acc := by
  intro names
  induction names with
  | nil => intro acc; rfl
  | cons p rest ih =>
    intro acc
    simp only [List.foldl_cons, List.map_cons]
    rw [count_step_eq fs hwf p acc]
    exact ih (max acc (rowSample fs p))

/-- `count_max_frames` computes exactly the sampled maximum of the hero
row plan. -/
theorem count_max_frames_eq (fs : CharFS) (hwf : fs.WellFormed) (charName : String) :
    count_max_frames fs charName = samplingMax fs (heroPlanNames charName) := by
  have h := count_fold_eq fs hwf (heroPlanNames charName) 0
  calc count_max_frames fs charName
      = (heroPlanNames charName).foldl
          (fun a p =>
            if p = "" then a
            else if fs.animDirExists p then scanFirstDir fs p a else a) 0 := by
        unfold heroPlanNames
        rw [List.foldl_map]
        rfl
    _ = samplingMax fs (heroPlanNames charName) := h

/-- `count_enemy_max_frames` computes exactly the sampled maximum of the
enemy row plan. -/
theorem count_enemy_max_frames_eq (fs : CharFS) (hwf : fs.WellFormed) (enemyName : String) :
    count_enemy_max_frames fs enemyName = samplingMax fs (enemyPlanNames enemyName) := by
  have h := count_fold_eq fs hwf (enemyPlanNames enemyName) 0
  calc count_enemy_max_frames fs enemyName
      = (enemyPlanNames enemyName).foldl
          (fun a p =>
            if p = "" then a
            else if fs.animDirExists p then scanFirstDir fs p a else a) 0 := by
        unfold enemyPlanNames
        rw [List.foldl_map]
        rfl
    _ = samplingMax fs (enemyPlanNames enemyName) := h

/-! ### Sheet dimension lemmas -/

theorem create_sprite_sheet_width (fs : CharFS) (n : String) (d : Direction) (m : Nat) :
    (create_sprite_sheet fs n d m).1.width = m * FRAME_SIZE := by
  unfold create_sprite_sheet
  rw [composeRows_fst_width]
  rfl

theorem create_sprite_sheet_height (fs : CharFS) (n : String) (d : Direction) (m : Nat) :
    (create_sprite_sheet fs n d m).1.height = ANIM_ORDER.length * FRAME_SIZE := by
  unfold create_sprite_sheet
  rw [composeRows_fst_height]
  rfl

theorem create_enemy_sprite_sheet_width (fs : CharFS) (n : String) (d : Direction) (m : Nat) :
    (create_enemy_sprite_sheet fs n d m).1.width = m * FRAME_SIZE := by
  unfold create_enemy_sprite_sheet
  rw [composeRows_fst_width]
  rfl

theorem create_enemy_sprite_sheet_height (fs : CharFS) (n : String) (d : Direction) (m : Nat) :
    (create_enemy_sprite_sheet fs n d m).1.height = (enemyRowPlan n).length * FRAME_SIZE := by
  unfold create_enemy_sprite_sheet
  rw [composeRows_fst_height]
  rfl

/-! ### Claim C1 -/

/-- C1: for every entity (hero or enemy), the computed max_frames equals
the largest FrameSequence length found by sampling, for each row of the
entity's row plan, only the first direction in the fixed order (south,
west, east, north) that has any frames for that row; consequently two
filesystems whose per-row samples agree yield the same max_frames, so
extra frames in a later direction of a row never change the result. -/
theorem c1_max_frames_sampling (fs : CharFS) (hwf : fs.WellFormed) (name : String) :
    count_max_frames fs name = samplingMax fs (heroPlanNames name)
    ∧ count_enemy_max_frames fs name = samplingMax fs (enemyPlanNames name)
    ∧ (∀ fs2 : CharFS, fs2.WellFormed →
        (∀ p, rowSample fs p = rowSample fs2 p) →
        count_max_frames fs name = count_max_frames fs2 name
        ∧ count_enemy_max_frames fs name = count_enemy_max_frames fs2 name) := by
  refine ⟨count_max_frames_eq fs hwf name, count_enemy_max_frames_eq fs hwf name, ?_⟩
  intro fs2 hwf2 hsame
  have hmap : ∀ l : List String, l.map (rowSample fs) = l.map (rowSample fs2) :=
    fun l => List.map_congr_left (fun p _ => hsame p)
  constructor
  · rw [count_max_frames_eq fs hwf name, count_max_frames_eq fs2 hwf2 name]
    unfold samplingMax
    rw [hmap]
  · rw [count_enemy_max_frames_eq fs hwf name, count_enemy_max_frames_eq fs2 hwf2 name]
    unfold samplingMax
    rw [hmap]

/-- Witness for C1 at a concrete filesystem: the sampled row for
`breathing-idle` is south (2 frames), so max_frames is 2 even though the
east direction holds 3 frames. -/
theorem c1_witness :
    fsSample.WellFormed
    ∧ count_max_frames fsSample "bolt" = samplingMax fsSample (heroPlanNames "bolt")
    ∧ count_max_frames fsSample "bolt" = 2
    ∧ (get_frame_files fsSample "breathing-idle" Direction.east).length = 3 := by
  have hwf : fsSample.WellFormed := by
    intro p d h
    simp [fsSample] at h
  refine ⟨hwf, (c1_max_frames_sampling fsSample hwf "bolt").1, by decide, by decide⟩

/-! ### Claim C3 -/

/-- C3: for every processed entity, all four directional sheets have
identical pixel dimensions, namely max_frames × cell width by
row-count × cell height, with max_frames computed once per entity and
passed to every direction's compositor. -/
theorem c3_sheet_dimensions (fs : CharFS) (name : String) :
    ((process_character fs name).1.map (fun f => ((f.2).width, (f.2).height)))
      = List.replicate 4
          (count_max_frames fs name * FRAME_SIZE, ANIM_ORDER.length * FRAME_SIZE)
    ∧ ((process_enemy fs name).1.map (fun f => ((f.2).width, (f.2).height)))
      = List.replicate 4
          (count_enemy_max_frames fs name * FRAME_SIZE,
            (enemyRowPlan name).length * FRAME_SIZE) := by
  constructor
  · unfold process_character
    simp [DIRECTIONS, create_sprite_sheet_width, create_sprite_sheet_height,
      List.replicate]
  · unfold process_enemy
    simp [DIRECTIONS, create_enemy_sprite_sheet_width, create_enemy_sprite_sheet_height,
      List.replicate]

/-! ### Claim C4 -/

/-- C4: for every entity, direction and row-plan row whose resolved
FrameSequence has length N ≥ 1, the direction's metadata records an
entry for the row's state with frame count N and row index equal to the
row's plan position; the frames are pasted top-left-anchored into
columns 0..N-1 of that row band; columns N..max_frames-1 of the band
stay fully transparent; and a row with N = 0 records no entry. -/
theorem c4_sheet_rows :
    (∀ (fs : CharFS) (charName : String) (d : Direction) (maxFrames i : Nat)
       (st : String) (src : Option String),
       ANIM_ORDER[i]? = some (st, src) →
       resolveSource charName src ≠ "" →
       SmallFrames fs →
       (get_frame_files fs (resolveSource charName src) d ≠ [] →
          (create_sprite_sheet fs charName d maxFrames).2.lookup st
            = some ⟨i, (get_frame_files fs (resolveSource charName src) d).length,
                    resolveSource charName src⟩
          ∧ (∀ (k : Nat) (hk : k < (get_frame_files fs (resolveSource charName src) d).length)
               (dx dy : Nat),
               dx < ((get_frame_files fs (resolveSource charName src) d).get ⟨k, hk⟩).width →
               dy < ((get_frame_files fs (resolveSource charName src) d).get ⟨k, hk⟩).height →
               (create_sprite_sheet fs charName d maxFrames).1.pix
                   (k * FRAME_SIZE + dx) (i * FRAME_SIZE + dy)
                 = ((get_frame_files fs (resolveSource charName src) d).get ⟨k, hk⟩).pix dx dy)
          ∧ (∀ c0 dx dy : Nat,
               (get_frame_files fs (resolveSource charName src) d).length ≤ c0 →
               c0 < maxFrames → dx < FRAME_SIZE → dy < FRAME_SIZE →
               (create_sprite_sheet fs charName d maxFrames).1.pix
                   (c0 * FRAME_SIZE + dx) (i * FRAME_SIZE + dy) = transparentPixel))
       ∧ (get_frame_files fs (resolveSource charName src) d = [] →
           (create_sprite_sheet fs charName d maxFrames).2.lookup st = none))
    ∧ (∀ (fs : CharFS) (kind : String) (d : Direction) (maxFrames i : Nat)
       (st pname : String),
       (enemyRowPlan kind)[i]? = some (st, pname) →
       pname ≠ "" →
       SmallFrames fs →
       (get_frame_files fs pname d ≠ [] →
          (create_enemy_sprite_sheet fs kind d maxFrames).2.lookup st
            = some ⟨i, (get_frame_files fs pname d).length, pname⟩
          ∧ (∀ (k : Nat) (hk : k < (get_frame_files fs pname d).length) (dx dy : Nat),
               dx < ((get_frame_files fs pname d).get ⟨k, hk⟩).width →
               dy < ((get_frame_files fs pname d).get ⟨k, hk⟩).height →
               (create_enemy_sprite_sheet fs kind d maxFrames).1.pix
                   (k * FRAME_SIZE + dx) (i * FRAME_SIZE + dy)
                 = ((get_frame_files fs pname d).get ⟨k, hk⟩).pix dx dy)
          ∧ (∀ c0 dx dy : Nat,
               (get_frame_files fs pname d).length ≤ c0 →
               c0 < maxFrames → dx < FRAME_SIZE → dy < FRAME_SIZE →
               (create_enemy_sprite_sheet fs kind d maxFrames).1.pix
                   (c0 * FRAME_SIZE + dx) (i * FRAME_SIZE + dy) = transparentPixel))
       ∧ (get_frame_files fs pname d = [] →
           (create_enemy_sprite_sheet fs kind d maxFrames).2.lookup st = none)) := by
  constructor
  · intro fs charName d maxFrames i st src hi hname hsmall
    have hnodup : (ANIM_ORDER.map Prod.fst).Nodup := by decide
    have hother : ∀ (j : Nat) (e : String × Option String), j ≠ i →
        ANIM_ORDER[j]? = some e → e.1 ≠ st :=
      fun j e hj hje => keys_nodup_ne ANIM_ORDER hnodup i j (st, src) e hi hje hj
    constructor
    · intro hne
      refine ⟨?_, ?_, ?_⟩
      · have h := composeRows_emit ANIM_ORDER i fs charName d 0
          (Image.new (maxFrames * FRAME_SIZE) (ANIM_ORDER.length * FRAME_SIZE)) []
          st src hi hname hne rfl hother
        simpa [create_sprite_sheet] using h
      · intro k hk dx dy hdx hdy
        have h := composeRows_content ANIM_ORDER i fs charName d 0
          (Image.new (maxFrames * FRAME_SIZE) (ANIM_ORDER.length * FRAME_SIZE)) []
          st src hi hname hsmall k hk dx dy hdx hdy
        simpa [create_sprite_sheet] using h
      · intro c0 dx dy hc0 _ hdx hdy
        have h := composeRows_transparent ANIM_ORDER i fs charName d 0
          (Image.new (maxFrames * FRAME_SIZE) (ANIM_ORDER.length * FRAME_SIZE)) []
          st src c0 dx dy hi hsmall (fun x y _ _ => rfl) (Or.inr hc0) hdx hdy
        simpa [create_sprite_sheet] using h
    · intro hempty
      unfold create_sprite_sheet
      refine composeRows_lookup_none ANIM_ORDER fs charName d 0 _ [] st rfl ?_
      intro j e hj he
      by_cases hij : j = i
      · subst hij
        rw [hi] at hj
        obtain rfl : (st, src) = e := Option.some_inj.mp hj
        right
        exact hempty
      · exact absurd he (hother j e hij hj)
  · intro fs kind d maxFrames i st pname hi hp hsmall
    have hi' : ((enemyRowPlan kind).map (fun sp => (sp.1, some sp.2)))[i]?
        = some (st, some pname) := by
      rw [List.getElem?_map, hi]
      rfl
    have hkeys : ((enemyRowPlan kind).map (fun sp => ((sp.1 : String), some sp.2))).map Prod.fst
        = (enemyRowPlan kind).map Prod.fst := by
      rw [List.map_map]
      rfl
    have hnodup : (((enemyRowPlan kind).map (fun sp => ((sp.1 : String), some sp.2))).map
        Prod.fst).Nodup := by
      rw [hkeys]
      exact enemyRowPlan_keys_nodup kind
    have hother : ∀ (j : Nat) (e : String × Option String), j ≠ i →
        ((enemyRowPlan kind).map (fun sp => (sp.1, some sp.2)))[j]? = some e → e.1 ≠ st :=
      fun j e hj hje =>
        keys_nodup_ne _ hnodup i j (st, some pname) e hi' hje hj
    have hname : resolveSource kind (some pname) ≠ "" := hp
    constructor
    · intro hne
      refine ⟨?_, ?_, ?_⟩
      · have h := composeRows_emit ((enemyRowPlan kind).map (fun sp => (sp.1, some sp.2))) i
          fs kind d 0
          (Image.new (maxFrames * FRAME_SIZE) ((enemyRowPlan kind).length * FRAME_SIZE)) []
          st (some pname) hi' hname hne rfl hother
        simpa [create_enemy_sprite_sheet] using h
      · intro k hk dx dy hdx hdy
        have h := composeRows_content ((enemyRowPlan kind).map (fun sp => (sp.1, some sp.2))) i
          fs kind d 0
          (Image.new (maxFrames * FRAME_SIZE) ((enemyRowPlan kind).length * FRAME_SIZE)) []
          st (some pname) hi' hname hsmall k hk dx dy hdx hdy
        simpa [create_enemy_sprite_sheet] using h
      · intro c0 dx dy hc0 _ hdx hdy
        have h := composeRows_transparent
          ((enemyRowPlan kind).map (fun sp => (sp.1, some sp.2))) i fs kind d 0
          (Image.new (maxFrames * FRAME_SIZE) ((enemyRowPlan kind).length * FRAME_SIZE)) []
          st (some pname) c0 dx dy hi' hsmall (fun x y _ _ => rfl) (Or.inr hc0) hdx hdy
        simpa [create_enemy_sprite_sheet] using h
    · intro hempty
      unfold create_enemy_sprite_sheet
      refine composeRows_lookup_none _ fs kind d 0 _ [] st rfl ?_
      intro j e hj he
      by_cases hij : j = i
      · subst hij
        rw [hi'] at hj
        obtain rfl : ((st : String), some pname) = e := Option.some_inj.mp hj
        right
        exact hempty
      · exact absurd he (hother j e hij hj)

/-- Witness for C4 at a concrete filesystem: hero `bolt`, row 0
(`idle` / `breathing-idle`), direction south, two frames. -/
theorem c4_witness :
    ANIM_ORDER[0]? = some ("idle", some "breathing-idle")
    ∧ resolveSource "bolt" (some "breathing-idle") ≠ ""
    ∧ SmallFrames fsSample
    ∧ get_frame_files fsSample "breathing-idle" Direction.south ≠ []
    ∧ (create_sprite_sheet fsSample "bolt" Direction.south 2).2.lookup "idle"
        = some ⟨0, 2, "breathing-idle"⟩ := by
  have hsm : SmallFrames fsSample := by
    intro p d f hf
    unfold get_frame_files at hf
    split at hf
    · simp only [fsSample] at hf
      have hfe := List.eq_of_mem_replicate hf
      subst hfe
      exact ⟨le_refl _, le_refl _⟩
    · simp at hf
  have hne : get_frame_files fsSample "breathing-idle" Direction.south ≠ [] := by
    intro hcon
    exact absurd (congrArg List.length hcon) (by decide)
  have h := (c4_sheet_rows.1 fsSample "bolt" Direction.south 2 0 "idle"
    (some "breathing-idle") rfl (by decide) hsm).1 hne
  refine ⟨rfl, by decide, hsm, hne, ?_⟩
  have hlen : (get_frame_files fsSample "breathing-idle" Direction.south).length = 2 := by
    decide
  have h1 := h.1
  simp only [resolveSource] at h1
  rw [hlen] at h1
  exact h1

/-! ### Claim C6 -/

/-- C6: for a hero absent from `SPECIAL_ANIMS`, the "special" row
resolves to an empty source name and is skipped entirely: no metadata
entry in any direction, its canvas band stays fully transparent, yet the
sheet height still counts the row and the following row (`attack`) keeps
index 4. -/
theorem c6_missing_special_row (fs : CharFS) (name : String) (d : Direction)
    (maxFrames : Nat) (hlookup : SPECIAL_ANIMS.lookup name = none) :
    (create_sprite_sheet fs name d maxFrames).2.lookup "special" = none
    ∧ (create_sprite_sheet fs name d maxFrames).1.height
        = ANIM_ORDER.length * FRAME_SIZE
    ∧ (∀ m : AnimMeta,
        (create_sprite_sheet fs name d maxFrames).2.lookup "attack" = some m → m.row = 4)
    ∧ (SmallFrames fs → ∀ c0 dx dy : Nat, dx < FRAME_SIZE → dy < FRAME_SIZE →
        (create_sprite_sheet fs name d maxFrames).1.pix
          (c0 * FRAME_SIZE + dx) (3 * FRAME_SIZE + dy) = transparentPixel) := by
  have hres : resolveSource name none = "" := by
    simp [resolveSource, hlookup]
  refine ⟨?_, create_sprite_sheet_height fs name d maxFrames, ?_, ?_⟩
  · unfold create_sprite_sheet
    refine composeRows_lookup_none ANIM_ORDER fs name d 0 _ [] "special" rfl ?_
    intro j e hj he
    have hmem : e ∈ ANIM_ORDER := List.mem_iff_getElem?.mpr ⟨j, hj⟩
    simp only [ANIM_ORDER, List.mem_cons, List.not_mem_nil, or_false] at hmem
    rcases hmem with rfl | rfl | rfl | rfl | rfl
    · simp at he
    · simp at he
    · simp at he
    · left
      exact hres
    · simp at he
  · intro m hm
    by_cases hfr : get_frame_files fs "cross-punch" d = []
    · have hnone : (create_sprite_sheet fs name d maxFrames).2.lookup "attack" = none := by
        unfold create_sprite_sheet
        refine composeRows_lookup_none ANIM_ORDER fs name d 0 _ [] "attack" rfl ?_
        intro j e hj he
        have hmem : e ∈ ANIM_ORDER := List.mem_iff_getElem?.mpr ⟨j, hj⟩
        simp only [ANIM_ORDER, List.mem_cons, List.not_mem_nil, or_false] at hmem
        rcases hmem with rfl | rfl | rfl | rfl | rfl
        · simp at he
        · simp at he
        · simp at he
        · simp at he
        · right
          exact hfr
      rw [hnone] at hm
      cases hm
    · have hother : ∀ (j : Nat) (e : String × Option String), j ≠ 4 →
          ANIM_ORDER[j]? = some e → e.1 ≠ "attack" :=
        fun j e hj hje =>
          keys_nodup_ne ANIM_ORDER (by decide) 4 j ("attack", some "cross-punch") e rfl hje hj
      have hemit := composeRows_emit ANIM_ORDER 4 fs name d 0
        (Image.new (maxFrames * FRAME_SIZE) (ANIM_ORDER.length * FRAME_SIZE)) []
        "attack" (some "cross-punch") rfl (by intro hcon; simp [resolveSource] at hcon)
        hfr rfl hother
      unfold create_sprite_sheet at hm
      rw [hemit] at hm
      injection hm with h
      rw [← h]
  · intro hsmall c0 dx dy hdx hdy
    have h := composeRows_transparent ANIM_ORDER 3 fs name d 0
      (Image.new (maxFrames * FRAME_SIZE) (ANIM_ORDER.length * FRAME_SIZE)) []
      "special" none c0 dx dy rfl hsmall (fun x y _ _ => rfl) (Or.inl hres) hdx hdy
    simpa [create_sprite_sheet] using h

/-- Witness for C6 at a concrete hero name absent from `SPECIAL_ANIMS`. -/
theorem c6_witness :
    SPECIAL_ANIMS.lookup "zed" = none
    ∧ (create_sprite_sheet fsEmpty "zed" Direction.south 2).2.lookup "special" = none
    ∧ (create_sprite_sheet fsEmpty "zed" Direction.south 2).1.height = 320 := by
  have hlk : SPECIAL_ANIMS.lookup "zed" = none := by decide
  have h := c6_missing_special_row fsEmpty "zed" Direction.south 2 hlk
  exact ⟨hlk, h.1, by simpa using h.2.1⟩

/-! ### Claim C2 -/

/-- Counterexample to C2 as stated: with the root asset directory
absent, `main` prints the diagnostic and plainly returns; the script
never calls `sys.exit`, so the process finishes with completion status
0 — not the non-zero status the claim asserts. -/
theorem c2_counterexample : (runMain none).exitCode = 0 := rfl

/-- C2 (amended): if the root asset directory is absent, the run aborts
immediately after reporting a diagnostic — no output directory is
created, no sheet and no metadata document is written — and the process
finishes with completion status 0. -/
theorem c2_abort_no_output :
    runMain none
      = { fatalError := true, outputDirCreated := false, files := [],
          metadataDoc := none, exitCode := 0 } := rfl

/-! ### Claim C5 -/

theorem foldl_max_const_zero : ∀ (l : List Nat), (∀ x ∈ l, x = 0) →
    ∀ acc : Nat, l.foldl max acc = acc := by
  intro l
  induction l with
  | nil => intro _ acc; rfl
  | cons x rest ih =>
    intro h acc
    simp only [List.foldl_cons]
    rw [h x (by simp), Nat.max_zero]
    exact ih (fun y hy => h y (by simp [hy])) acc

/-- Counterexample to C5 as stated: an entity whose rows have no frames
in any direction still gets four sheets composed and written. -/
theorem c5_counterexample :
    count_max_frames fsEmpty "bolt" = 0
    ∧ (runMain (some rootSample)).files.length = 4 := by
  constructor
  · decide
  · decide

/-- C5 (amended): for an entity with no frames anywhere on disk,
max_frames is 0, but the caller does not treat the 0-width sheet as
"nothing to compose": all four directional sheets are still composed
(each of width 0) and written for that entity. -/
theorem c5_zero_width_still_written (fs : CharFS) (name : String)
    (hempty : ∀ p d, get_frame_files fs p d = []) :
    count_max_frames fs name = 0
    ∧ (process_character fs name).1.length = 4
    ∧ (process_character fs name).1.map (fun f => (f.2).width) = [0, 0, 0, 0] := by
  have hwf : fs.WellFormed := fun p d _ => hempty p d
  have hrow : ∀ p, rowSample fs p = 0 := by
    intro p
    unfold rowSample
    by_cases h1 : p = ""
    · rw [if_pos h1]
    · rw [if_neg h1]
      have hfind : DIRECTIONS.find? (fun d => !(get_frame_files fs p d).isEmpty) = none := by
        simp [DIRECTIONS, List.find?_cons, hempty]
      rw [hfind]
  have hcount : count_max_frames fs name = 0 := by
    rw [count_max_frames_eq fs hwf name]
    unfold samplingMax
    refine foldl_max_const_zero _ ?_ 0
    intro x hx
    obtain ⟨p, _, hpx⟩ := List.mem_map.mp hx
    rw [← hpx]
    exact hrow p
  refine ⟨hcount, ?_, ?_⟩
  · unfold process_character
    simp [DIRECTIONS]
  · unfold process_character
    simp [DIRECTIONS, create_sprite_sheet_width, hcount]

/-- Witness for the amended C5 at a concrete empty filesystem. -/
theorem c5_witness :
    (∀ p d, get_frame_files fsEmpty p d = [])
    ∧ count_max_frames fsEmpty "bolt" = 0
    ∧ (process_character fsEmpty "bolt").1.length = 4 := by
  have hempty : ∀ p d, get_frame_files fsEmpty p d = [] := by
    intro p d
    simp [get_frame_files, fsEmpty]
  have h := c5_zero_width_still_written fsEmpty "bolt" hempty
  exact ⟨hempty, h.1, h.2.1⟩

/-! ### Sorted-listing machinery -/

/-- Two sorted entry listings with pairwise distinct names that are
permutations of each other are equal. -/
theorem eq_of_perm_sorted_names (l1 l2 : List EntityDir)
    (hp : l1.Perm l2) (hs1 : List.Sorted nameLe l1) (hs2 : List.Sorted nameLe l2)
    (hn1 : l1.Pairwise (fun a b => a.name ≠ b.name)) : l1 = l2 := by
  have hn2 : l2.Pairwise (fun a b => a.name ≠ b.name) :=
    (List.Perm.pairwise_iff (fun h => Ne.symm h) hp).mp hn1
  have hstrict1 : List.Pairwise (fun a b : EntityDir => a.name < b.name) l1 :=
    (List.Pairwise.and hs1 hn1).imp (fun h => lt_of_le_of_ne h.1 h.2)
  have hstrict2 : List.Pairwise (fun a b : EntityDir => a.name < b.name) l2 :=
    (List.Pairwise.and hs2 hn2).imp (fun h => lt_of_le_of_ne h.1 h.2)
  haveI : IsAntisymm EntityDir (fun a b : EntityDir => a.name < b.name) :=
    ⟨fun _ _ h1 h2 => absurd h2 (lt_asymm h1)⟩
  exact List.eq_of_perm_of_sorted hp hstrict1 hstrict2

/-- Directory listings that enumerate the same entries (with distinct
names) in different orders sort to the same list. -/
theorem insertionSort_eq_of_perm (l1 l2 : List EntityDir)
    (hperm : l1.Perm l2)
    (hnames : l1.Pairwise (fun a b => a.name ≠ b.name)) :
    List.insertionSort nameLe l1 = List.insertionSort nameLe l2 := by
  have hp : (List.insertionSort nameLe l1).Perm (List.insertionSort nameLe l2) :=
    (List.perm_insertionSort nameLe l1).trans
      (hperm.trans (List.perm_insertionSort nameLe l2).symm)
  have hn1 : (List.insertionSort nameLe l1).Pairwise (fun a b => a.name ≠ b.name) :=
    (List.Perm.pairwise_iff (fun h => Ne.symm h) (List.perm_insertionSort nameLe l1)).mpr
      hnames
  exact eq_of_perm_sorted_names _ _ hp
    (List.sorted_insertionSort nameLe l1) (List.sorted_insertionSort nameLe l2) hn1

/-- Removing entries that a filter `p` would reject anyway, before
sorting, does not change the `p`-selected part of the sorted listing. -/
theorem filter_insertionSort_filter (p q : EntityDir → Bool)
    (himp : ∀ e, p e = true → q e = true) (l : List EntityDir)
    (hnames : l.Pairwise (fun a b => a.name ≠ b.name)) :
    (List.insertionSort nameLe (l.filter q)).filter p
      = (List.insertionSort nameLe l).filter p := by
  have hqp : (l.filter q).filter p = l.filter p := by
    rw [List.filter_filter]
    refine List.filter_congr ?_
    intro a _
    by_cases hpa : p a = true
    · rw [hpa, himp a hpa]
      rfl
    · have hfa : p a = false := by simpa using hpa
      rw [hfa]
      rfl
  have hperm1 : ((List.insertionSort nameLe (l.filter q)).filter p).Perm (l.filter p) := by
    have h2 := (List.perm_insertionSort nameLe (l.filter q)).filter p
    rw [hqp] at h2
    exact h2
  have hperm2 : ((List.insertionSort nameLe l).filter p).Perm (l.filter p) :=
    (List.perm_insertionSort nameLe l).filter p
  have hp : ((List.insertionSort nameLe (l.filter q)).filter p).Perm
      ((List.insertionSort nameLe l).filter p) :=
    hperm1.trans hperm2.symm
  have hn1 : ((List.insertionSort nameLe (l.filter q)).filter p).Pairwise
      (fun a b => a.name ≠ b.name) := by
    refine List.Pairwise.filter p ?_
    refine (List.Perm.pairwise_iff (fun h => Ne.symm h)
      (List.perm_insertionSort nameLe (l.filter q))).mpr ?_
    exact List.Pairwise.filter q hnames
  exact eq_of_perm_sorted_names _ _ hp
    (List.Pairwise.filter p (List.sorted_insertionSort nameLe (l.filter q)))
    (List.Pairwise.filter p (List.sorted_insertionSort nameLe l)) hn1

/-! ### Main-loop characterization -/

/-- The hero loop writes exactly the sheets of the selected entries, in
listing order, and records exactly their metadata entries. -/
theorem processHeroes_eq : ∀ (l : List EntityDir),
    processHeroes l
      = (((l.filter heroCond).map (fun e => (process_character e.fs e.name).1)).flatten,
         (l.filter heroCond).map
           (fun e => (e.name, EntityMeta.hero (process_character e.fs e.name).2))) := by
  intro l
  induction l with
  | nil => rfl
  | cons e rest ih =>
    by_cases hc : heroCond e = true
    · simp only [processHeroes, ih, hc, if_pos, List.filter_cons_of_pos hc, List.map_cons,
        List.flatten_cons]
    · simp only [processHeroes, ih, hc, if_neg, List.filter_cons_of_neg hc]
      simp [hc]

/-- The enemy loop writes exactly the sheets of the selected entries, in
listing order, and records exactly their metadata entries. -/
theorem processEnemies_eq : ∀ (l : List EntityDir),
    processEnemies l
      = (((l.filter enemyCond).map (fun e => (process_enemy e.fs e.name).1)).flatten,
         (l.filter enemyCond).map
           (fun e => (e.name, EntityMeta.enemy (process_enemy e.fs e.name).2))) := by
  intro l
  induction l with
  | nil => rfl
  | cons e rest ih =>
    by_cases hc : enemyCond e = true
    · simp only [processEnemies, ih, hc, if_pos, List.filter_cons_of_pos hc, List.map_cons,
        List.flatten_cons]
    · simp only [processEnemies, ih, hc, if_neg, List.filter_cons_of_neg hc]
      simp [hc]

/-- `runMain` is determined by the processed hero and enemy loops. -/
theorem runMain_congr (r1 r2 : Root)
    (h1 : processHeroes (List.insertionSort nameLe r1.entries)
        = processHeroes (List.insertionSort nameLe r2.entries))
    (h2 : r1.enemiesExists = r2.enemiesExists)
    (h3 : processEnemies (List.insertionSort nameLe r1.enemies)
        = processEnemies (List.insertionSort nameLe r2.enemies)) :
    runMain (some r1) = runMain (some r2) := by
  simp only [runMain]
  rw [h1, h2, h3]

/-! ### Claim C7 -/

/-- C7: enemy subdirectories whose name is not a key of the static
enemy row plan table contribute nothing at all — removing every such
entry from the `enemies/` listing leaves the entire run result (files,
metadata document, diagnostics, exit status) unchanged. -/
theorem c7_unknown_enemy_ignored (r : Root)
    (hnames : r.enemies.Pairwise (fun a b => a.name ≠ b.name)) :
    runMain (some r)
      = runMain (some { r with
          enemies := r.enemies.filter
            (fun e => (ENEMY_ANIM_ORDER.lookup e.name).isSome) }) := by
  refine runMain_congr _ _ rfl rfl ?_
  rw [processEnemies_eq, processEnemies_eq]
  have himp : ∀ e : EntityDir, enemyCond e = true →
      (ENEMY_ANIM_ORDER.lookup e.name).isSome = true := by
    intro e he
    simp only [enemyCond, Bool.and_eq_true] at he
    exact he.2
  rw [filter_insertionSort_filter enemyCond
      (fun e => (ENEMY_ANIM_ORDER.lookup e.name).isSome) himp r.enemies hnames]

/-- Witness for C7: a root whose only enemy subdirectory is an unknown
kind. -/
theorem c7_witness :
    rootSample.enemies.Pairwise (fun a b => a.name ≠ b.name)
    ∧ runMain (some rootSample)
        = runMain (some { rootSample with
            enemies := rootSample.enemies.filter
              (fun e => (ENEMY_ANIM_ORDER.lookup e.name).isSome) }) := by
  have hn : rootSample.enemies.Pairwise (fun a b => a.name ≠ b.name) := by
    simp [rootSample]
  exact ⟨hn, c7_unknown_enemy_ignored rootSample hn⟩

/-! ### Claim C8 -/

/-- C8: the composer is deterministic in the input tree: two roots that
enumerate the same entries (heroes and enemies, with distinct names) in
any order, with the same `enemies/` existence, produce the identical
run result — the same sheets in the same fixed order (heroes sorted,
then enemies sorted) and the identical metadata document. -/
theorem c8_deterministic_runs (r1 r2 : Root)
    (hE : r1.entries.Perm r2.entries) (hN : r1.enemies.Perm r2.enemies)
    (hx : r1.enemiesExists = r2.enemiesExists)
    (hdE : r1.entries.Pairwise (fun a b => a.name ≠ b.name))
    (hdN : r1.enemies.Pairwise (fun a b => a.name ≠ b.name)) :
    runMain (some r1) = runMain (some r2) := by
  refine runMain_congr r1 r2 ?_ hx ?_
  · rw [insertionSort_eq_of_perm r1.entries r2.entries hE hdE]
  · rw [insertionSort_eq_of_perm r1.enemies r2.enemies hN hdN]

/-- Witness for C8: the same two hero directories listed in the two
possible enumeration orders. -/
theorem c8_witness :
    rootPairA.entries.Perm rootPairB.entries
    ∧ rootPairA.entries.Pairwise (fun a b => a.name ≠ b.name)
    ∧ runMain (some rootPairA) = runMain (some rootPairB) := by
  have hperm : rootPairA.entries.Perm rootPairB.entries :=
    List.Perm.swap entBolt entAlice []
  have hpw : rootPairA.entries.Pairwise (fun a b => a.name ≠ b.name) := by
    simp [rootPairA, entAlice, entBolt]
  have hpwN : rootPairA.enemies.Pairwise (fun a b => a.name ≠ b.name) := by
    simp [rootPairA]
  exact ⟨hperm, hpw,
    c8_deterministic_runs rootPairA rootPairB hperm (List.Perm.refl _) rfl hpw hpwN⟩

/-! ### Claim C9 -/

/-- C9: a top-level entity directory without an `animations/` subtree is
skipped entirely — removing every such entry from the listing leaves
the entire run result unchanged (no sheet, no metadata entry, no
failure attributable to it). -/
theorem c9_no_animations_skipped (r : Root)
    (hnames : r.entries.Pairwise (fun a b => a.name ≠ b.name)) :
    runMain (some r)
      = runMain (some { r with
          entries := r.entries.filter (fun e => e.hasAnims) }) := by
  refine runMain_congr _ _ ?_ rfl rfl
  rw [processHeroes_eq, processHeroes_eq]
  have himp : ∀ e : EntityDir, heroCond e = true → e.hasAnims = true := by
    intro e he
    simp only [heroCond, Bool.and_eq_true] at he
    exact he.2
  rw [filter_insertionSort_filter heroCond (fun e => e.hasAnims) himp r.entries hnames]

/-- Witness for C9: a root whose only entry has no `animations/`
subtree. -/
theorem c9_witness :
    rootPlain.entries.Pairwise (fun a b => a.name ≠ b.name)
    ∧ runMain (some rootPlain)
        = runMain (some { rootPlain with
            entries := rootPlain.entries.filter (fun e => e.hasAnims) }) := by
  have hn : rootPlain.entries.Pairwise (fun a b => a.name ≠ b.name) := by
    simp [rootPlain]
  exact ⟨hn, c9_no_animations_skipped rootPlain hn⟩

/-! ### Claim C10 -/

/-- C10: a top-level directory named `sheets`, `enemies`, `objects` or
`tilesets` is never processed as a hero; the hero entries of the
aggregate metadata document are exactly the sorted top-level directories
outside the skip set that contain an `animations/` subtree. -/
theorem c10_skip_set_not_heroes (r : Root) :
    (runMain (some r)).metadataDoc
      = some (dictInsertAll
          (dictInsertAll []
            (((List.insertionSort nameLe r.entries).filter heroCond).map
              (fun e => (e.name, EntityMeta.hero (process_character e.fs e.name).2))))
          (if r.enemiesExists then
            ((List.insertionSort nameLe r.enemies).filter enemyCond).map
              (fun e => (e.name, EntityMeta.enemy (process_enemy e.fs e.name).2))
           else []))
    ∧ ((((List.insertionSort nameLe r.entries).filter heroCond).map
          (fun e => e.name)).all (fun n => !(skipDirs.contains n)) = true) := by
  constructor
  · by_cases hx : r.enemiesExists
    · simp [runMain, processHeroes_eq, processEnemies_eq, hx]
    · simp [runMain, processHeroes_eq, processEnemies_eq, hx]
  · rw [List.all_eq_true]
    intro n hn
    obtain ⟨e, he, rfl⟩ := List.mem_map.mp hn
    have hc := (List.mem_filter.mp he).2
    simp only [heroCond, Bool.and_eq_true] at hc
    exact hc.1.2
